import Mathlib

/-!
# Verification of the VelocityMart operations dashboard (`streamlit_app.py`)

This file is a shallow embedding, in Lean 4, of the data-transformation core of
the dashboard script: the chaos score, the three anomaly detectors (decimal
drift, shortcut pickers, ghost inventory), the temperature-violation check, the
aisle-traffic percentage, the phase-1 top-50 ranking, the in-place table
mutations performed by the script, and the CSV export/re-import of the final
slotting plan.

Modelling conventions:
* numeric CSV columns (`weight_kg`, `travel_distance_m`, penalties, scores) are
  modelled as rationals `ℚ`; Python floats are idealised as exact rationals;
* data frames are lists of records, in file order;
* `pandas` missing values (NaN produced by left joins or empty CSV fields) are
  modelled with `Option`;
* `Series.quantile` uses the default linear interpolation, which is modelled
  exactly below;
* `Python round(x, 1)` rounds half to even, which is modelled exactly below.
-/

namespace DataVerse

/-! ## Chaos score (lines 182-189)

```
temp_penalty = min(25, len(temp_violations) * 0.05)
shortcut_penalty = min(15, len(shortcut_pickers) * 5)
aisle_b_penalty = min(20, pct_b)
chaos_score = round(100 - temp_penalty - shortcut_penalty - aisle_b_penalty, 1)
```
The two `len` inputs are naturals; `pct_b` is a rational. -/

/-- Python `round` to an integer: round half to even (banker's rounding),
modelled exactly on `ℚ`. -/
def pyRoundInt (q : ℚ) : ℤ :=
  let f : ℤ := ⌊q⌋
  let r : ℚ := q - (f : ℚ)
  if r < 1/2 then f
  else if 1/2 < r then f + 1
  else if f % 2 = 0 then f else f + 1

/-- Python `round(x, 1)`: round to one decimal place. -/
def round1 (q : ℚ) : ℚ := (pyRoundInt (q * 10) : ℚ) / 10

/-- Line 182: `temp_penalty = min(25, len(temp_violations) * 0.05)`. -/
def temp_penalty (violation_count : ℕ) : ℚ :=
  min 25 ((violation_count : ℚ) * (5/100))

/-- Line 183: `shortcut_penalty = min(15, len(shortcut_pickers) * 5)`. -/
def shortcut_penalty (suspicious_picker_count : ℕ) : ℚ :=
  min 15 ((suspicious_picker_count : ℚ) * 5)

/-- Line 184: `aisle_b_penalty = min(20, pct_b)`. -/
def aisle_b_penalty (pct_b : ℚ) : ℚ := min 20 pct_b

/-- Lines 186-189: the composite chaos score. -/
def chaos_score (violation_count suspicious_picker_count : ℕ) (pct_b : ℚ) : ℚ :=
  round1 (100 - temp_penalty violation_count
    - shortcut_penalty suspicious_picker_count - aisle_b_penalty pct_b)

/-! Basic bounds for the rounding function. -/

theorem pyRoundInt_bounds (q : ℚ) : ⌊q⌋ ≤ pyRoundInt q ∧ pyRoundInt q ≤ ⌊q⌋ + 1 := by
  unfold pyRoundInt
  dsimp only
  split
  · exact ⟨le_refl _, by omega⟩
  · split
    · exact ⟨by omega, le_refl _⟩
    · split
      · exact ⟨le_refl _, by omega⟩
      · exact ⟨by omega, le_refl _⟩

theorem pyRoundInt_intCast (n : ℤ) : pyRoundInt (n : ℚ) = n := by
  unfold pyRoundInt
  simp

theorem le_pyRoundInt {n : ℤ} {q : ℚ} (h : (n : ℚ) ≤ q) : n ≤ pyRoundInt q :=
  le_trans (Int.le_floor.mpr h) (pyRoundInt_bounds q).1

theorem pyRoundInt_le {n : ℤ} {q : ℚ} (h : q ≤ (n : ℚ)) : pyRoundInt q ≤ n := by
  rcases eq_or_lt_of_le h with heq | hlt
  · subst heq
    rw [pyRoundInt_intCast]
  · exact le_trans (pyRoundInt_bounds q).2 (by have := Int.floor_lt.mpr hlt; omega)

theorem round1_mem_Icc {a b q : ℚ} (ha : ∃ za : ℤ, (za : ℚ) = a * 10)
    (hb : ∃ zb : ℤ, (zb : ℚ) = b * 10) (h1 : a ≤ q) (h2 : q ≤ b) :
    a ≤ round1 q ∧ round1 q ≤ b := by
  obtain ⟨za, hza⟩ := ha
  obtain ⟨zb, hzb⟩ := hb
  have hlo : za ≤ pyRoundInt (q * 10) := by
    apply le_pyRoundInt
    rw [hza]
    nlinarith
  have hhi : pyRoundInt (q * 10) ≤ zb := by
    apply pyRoundInt_le
    rw [hzb]
    nlinarith
  constructor
  · have : (za : ℚ) ≤ (pyRoundInt (q * 10) : ℚ) := by exact_mod_cast hlo
    rw [round1]
    rw [hza] at this
    linarith
  · have : ((pyRoundInt (q * 10) : ℚ)) ≤ (zb : ℚ) := by exact_mod_cast hhi
    rw [round1]
    rw [hzb] at this
    linarith

/-- C1: the chaos score is computed exactly as
`round(100 - min(25, v*0.05) - min(15, s*5) - min(20, pct_b), 1)`, and on the
inputs `violation_count = 100`, `suspicious_picker_count = 2`, `pct_b = 30` the
penalties are `5.0`, `10.0`, `20.0` and the chaos score is `65.0`. -/
theorem chaos_score_formula :
    (∀ (v s : ℕ) (p : ℚ), chaos_score v s p =
      round1 (100 - min 25 ((v : ℚ) * (5/100)) - min 15 ((s : ℚ) * 5) - min 20 p)) ∧
    temp_penalty 100 = 5 ∧ shortcut_penalty 2 = 10 ∧ aisle_b_penalty 30 = 20 ∧
    chaos_score 100 2 30 = 65 := by
  refine ⟨fun v s p => rfl, ?_, ?_, ?_, ?_⟩
  · norm_num [temp_penalty, min_def]
  · norm_num [shortcut_penalty, min_def]
  · norm_num [aisle_b_penalty, min_def]
  · norm_num [chaos_score, round1, pyRoundInt, temp_penalty, shortcut_penalty,
      aisle_b_penalty, min_def]

/-- C2: for all non-negative violation and suspicious-picker counts and any
aisle-B percentage in `[0, 100]`, the chaos score lies in `[40, 100]`: each
penalty is independently capped (at 25, 15 and 20), so the floor is
`100 - 25 - 15 - 20 = 40`. -/
theorem chaos_score_range (v s : ℕ) (p : ℚ) (h0 : 0 ≤ p) (_h100 : p ≤ 100) :
    40 ≤ chaos_score v s p ∧ chaos_score v s p ≤ 100 := by
  have ht : 0 ≤ temp_penalty v ∧ temp_penalty v ≤ 25 := by
    constructor
    · apply le_min (by norm_num)
      positivity
    · exact min_le_left _ _
  have hs : 0 ≤ shortcut_penalty s ∧ shortcut_penalty s ≤ 15 := by
    constructor
    · apply le_min (by norm_num)
      positivity
    · exact min_le_left _ _
  have hb : 0 ≤ aisle_b_penalty p ∧ aisle_b_penalty p ≤ 20 := by
    exact ⟨le_min (by norm_num) h0, min_le_left _ _⟩
  apply round1_mem_Icc ⟨400, by norm_num⟩ ⟨1000, by norm_num⟩
  · linarith [ht.2, hs.2, hb.2]
  · linarith [ht.1, hs.1, hb.1]

/-- Witness for C2 at `v = 100`, `s = 2`, `p = 30`. -/
theorem chaos_score_range_witness :
    40 ≤ chaos_score 100 2 30 ∧ chaos_score 100 2 30 ≤ 100 :=
  chaos_score_range 100 2 30 (by norm_num) (by norm_num)

/-! ## Data model

Rows of the five loaded CSV tables (section 6 of the accompanying design
notes).  A timestamp cell is either the raw CSV string or the structured
datetime produced by `pd.to_datetime` (lines 30-31); the structured value
retains the source text, and `hourOf` reads the `HH` field of a
`YYYY-MM-DD HH:MM:SS` timestamp (`.dt.hour`). -/

inductive TsCell where
  | raw (s : String)
  | parsed (s : String)
deriving DecidableEq, Repr

/-- Numeric value of a decimal digit character. -/
def digitVal (c : Char) : ℕ := c.toNat - 48

/-- Hour component of a `YYYY-MM-DD HH:MM:SS` string (model of `.dt.hour`). -/
def hourOfString (s : String) : ℕ :=
  match s.data.drop 11 with
  | c1 :: c2 :: _ => digitVal c1 * 10 + digitVal c2
  | _ => 0

def hourOf : TsCell → ℕ
  | .raw s => hourOfString s
  | .parsed s => hourOfString s

/-- A row of `cleaned_order_transactions.csv`. -/
structure OrderRow where
  order_id : String
  sku_id : String
  order_timestamp : TsCell
deriving DecidableEq, Repr

/-- A row of `cleaned_picker_movement.csv`.  The `hour` column does not exist
at load time (`none`); line 149 of the script adds it in place. -/
structure PickerRow where
  picker_id : String
  order_id : String
  sku_id : String
  travel_distance_m : ℚ
  order_timestamp : TsCell
  hour : Option ℕ
deriving DecidableEq, Repr

/-- A row of `cleaned_warehouse_constraints.csv`. -/
structure SlotRow where
  slot_id : String
  temp_zone : String
deriving DecidableEq, Repr

/-- A row of `cleaned_sku_master.csv`. -/
structure SkuRow where
  sku_id : String
  category : String
  weight_kg : ℚ
  current_slot : String
  temp_req : String
deriving DecidableEq, Repr

/-! ## Aisle extraction and global aisle traffic (lines 36-55)

`orders.merge(sku_master[["sku_id", "current_slot"]], on="sku_id", how="left")`
attaches each matching SKU's slot to each order (a left join: orders without a
matching SKU keep a missing slot, and an order is repeated once per matching
SKU row).  `str.extract(r"^([A-Z])")` takes the leading character when it is an
uppercase letter and is missing otherwise; `groupby("aisle")` drops missing
aisles and lists the group keys in ascending order. -/

/-- `str.extract(r"^([A-Z])")` on a slot code (line 41). -/
def extractAisle (slot : String) : Option Char :=
  match slot.data with
  | [] => none
  | c :: _ => if 'A' ≤ c ∧ c ≤ 'Z' then some c else none

/-- The SKU-master rows matching a given `sku_id` (the right side of a pandas
left join on `sku_id`). -/
def skuMatches (sku_master : List SkuRow) (sid : String) : List SkuRow :=
  sku_master.filter (fun m => m.sku_id == sid)

/-- Lines 36-40: `orders_with_slot` — each order paired with the slot of each
matching SKU-master row (`none` when no SKU row matches). -/
def orders_with_slot (orders : List OrderRow) (sku_master : List SkuRow) :
    List (OrderRow × Option String) :=
  orders.flatMap (fun o =>
    match skuMatches sku_master o.sku_id with
    | [] => [(o, none)]
    | ms => ms.map (fun m => (o, some m.current_slot)))

/-- The derived aisle of an `orders_with_slot` row (missing slot or
non-uppercase leading character ⇒ missing aisle). -/
def rowAisle (p : OrderRow × Option String) : Option Char :=
  p.2.bind extractAisle

/-- Ascending sorted list of the distinct elements of `l` (the group keys of a
pandas `groupby`). -/
def groupKeys (l : List Char) : List Char :=
  (l.insertionSort (· ≤ ·)).dedup

/-- Lines 43-48: visit counts per aisle, missing aisles dropped, keys in
ascending order. -/
def aisle_traffic (orders : List OrderRow) (sku_master : List SkuRow) :
    List (Char × ℕ) :=
  let aisles := (orders_with_slot orders sku_master).filterMap rowAisle
  (groupKeys aisles).map (fun k => (k, aisles.count k))

/-- Line 50: total traffic over all aisles. -/
def total_traffic (orders : List OrderRow) (sku_master : List SkuRow) : ℕ :=
  ((aisle_traffic orders sku_master).map Prod.snd).sum

/-- Line 52: the `visit_count` of the first `aisle_traffic` row whose aisle is
`"B"`. -/
def b_traffic (orders : List OrderRow) (sku_master : List SkuRow) : ℕ :=
  (((aisle_traffic orders sku_master).filter (fun r => r.1 == 'B')).headD ('B', 0)).2

/-- Lines 51-55: percentage of traffic in aisle B, defined as `0.0` when no
order falls in aisle B. -/
def pct_b (orders : List OrderRow) (sku_master : List SkuRow) : ℚ :=
  if 'B' ∈ (aisle_traffic orders sku_master).map Prod.fst then
    ((b_traffic orders sku_master : ℚ) / (total_traffic orders sku_master : ℚ)) * 100
  else 0

/-- C10: the aisle-B traffic percentage is always well defined.  When no order
maps to aisle `B` (in particular when the order table is empty) `pct_b` is
`0.0` and the aisle-B chaos penalty is `0`; the division by `total_traffic`
only happens when aisle `B` is present, in which case `total_traffic ≥ 1`. -/
theorem pct_b_well_defined (orders : List OrderRow) (sku_master : List SkuRow) :
    ('B' ∉ (aisle_traffic orders sku_master).map Prod.fst →
      pct_b orders sku_master = 0 ∧ aisle_b_penalty (pct_b orders sku_master) = 0) ∧
    ('B' ∈ (aisle_traffic orders sku_master).map Prod.fst →
      1 ≤ total_traffic orders sku_master ∧
      pct_b orders sku_master =
        ((b_traffic orders sku_master : ℚ) / (total_traffic orders sku_master : ℚ)) * 100) ∧
    pct_b [] sku_master = 0 := by
  refine ⟨fun hB => ?_, fun hB => ?_, ?_⟩
  · have h0 : pct_b orders sku_master = 0 := by
      rw [pct_b, if_neg hB]
    refine ⟨h0, ?_⟩
    rw [h0, aisle_b_penalty]
    exact min_eq_right (by norm_num)
  · constructor
    · set aisles := (orders_with_slot orders sku_master).filterMap rowAisle with haisles
      have hkeys : (aisle_traffic orders sku_master).map Prod.fst = groupKeys aisles := by
        simp [aisle_traffic, List.map_map, Function.comp_def]
      have hBa : 'B' ∈ aisles := by
        rw [hkeys] at hB
        have := List.mem_dedup.mp hB
        exact (List.perm_insertionSort (· ≤ ·) aisles).mem_iff.mp this
      have hcnt : 1 ≤ aisles.count 'B' := List.count_pos_iff.mpr hBa
      have hBk : 'B' ∈ groupKeys aisles := by rw [← hkeys]; exact hB
      have hmem : aisles.count 'B' ∈ ((aisle_traffic orders sku_master).map Prod.snd) := by
        rw [aisle_traffic, List.map_map]
        exact List.mem_map.mpr ⟨'B', hBk, rfl⟩
      exact le_trans hcnt (List.le_sum_of_mem hmem)
    · rw [pct_b, if_pos hB]
  · rw [pct_b]
    have : aisle_traffic [] sku_master = [] := rfl
    rw [this]
    simp

/-- Witness for C10: with no orders the percentage is `0`, and with a single
order stored in aisle `B` the total traffic is at least `1`. -/
theorem pct_b_well_defined_witness :
    pct_b [] [] = 0 ∧
    1 ≤ total_traffic [⟨"o1", "s1", .raw "2024-01-01 10:00:00"⟩]
      [⟨"s1", "dairy", 1, "B1", "CHILL"⟩] := by
  constructor
  · exact (pct_b_well_defined [] []).2.2
  · refine ((pct_b_well_defined [⟨"o1", "s1", .raw "2024-01-01 10:00:00"⟩]
      [⟨"s1", "dairy", 1, "B1", "CHILL"⟩]).2.1 ?_).1
    decide

/-! ## Ghost inventory (lines 103-110)

```
valid_bins = set(warehouse["slot_id"])
ghost_bins = set(sku_master["current_slot"]) - valid_bins
```
Non-empty `ghost_bins` shows the SKU rows whose `current_slot` is a ghost bin;
an empty set reports the clean-success state. -/

/-- Line 104: the warehouse's valid slot identifiers, as a set. -/
def valid_bins (warehouse : List SlotRow) : Finset String :=
  (warehouse.map SlotRow.slot_id).toFinset

/-- Line 105: SKU `current_slot` values minus the valid slots. -/
def ghost_bins (warehouse : List SlotRow) (sku_master : List SkuRow) : Finset String :=
  (sku_master.map SkuRow.current_slot).toFinset \ valid_bins warehouse

/-- Line 108: the SKU rows located in a ghost bin. -/
def ghost_rows (warehouse : List SlotRow) (sku_master : List SkuRow) : List SkuRow :=
  sku_master.filter (fun r => decide (r.current_slot ∈ ghost_bins warehouse sku_master))

/-- The rendered outcome of the ghost-inventory tab (lines 106-110). -/
inductive GhostReport where
  | alert (rows : List SkuRow)
  | clean
deriving DecidableEq, Repr

/-- Lines 106-110: alert with the offending rows when `ghost_bins` is
non-empty, clean-success state otherwise. -/
def ghost_report (warehouse : List SlotRow) (sku_master : List SkuRow) : GhostReport :=
  if ghost_bins warehouse sku_master = ∅ then .clean
  else .alert (ghost_rows warehouse sku_master)

/-- C4: the ghost-inventory set is exactly the set difference between the SKU
masters' `current_slot` values and the warehouse's `slot_id` values; when the
difference is empty no SKU row is flagged and the clean state is reported; and
for warehouse slots `{A1, A2, B1}` with SKU slots `{A1, C9}` the ghost set is
exactly `{C9}`. -/
theorem ghost_bins_spec (warehouse : List SlotRow) (sku_master : List SkuRow) :
    (ghost_bins warehouse sku_master =
      (sku_master.map SkuRow.current_slot).toFinset \ (warehouse.map SlotRow.slot_id).toFinset) ∧
    (ghost_bins warehouse sku_master = ∅ →
      ghost_rows warehouse sku_master = [] ∧ ghost_report warehouse sku_master = .clean) ∧
    ghost_bins [⟨"A1", "AMBIENT"⟩, ⟨"A2", "AMBIENT"⟩, ⟨"B1", "CHILL"⟩]
      [⟨"s1", "dairy", 1, "A1", "CHILL"⟩, ⟨"s2", "snacks", 2, "C9", "AMBIENT"⟩] = {"C9"} := by
  refine ⟨rfl, fun h => ⟨?_, ?_⟩, by decide⟩
  · rw [ghost_rows, h]
    simp
  · rw [ghost_report, if_pos h]

/-- Witness for C4: with a single slot `A1` and a single SKU stored in it the
ghost set is empty, nothing is flagged and the clean state is reported. -/
theorem ghost_bins_spec_witness :
    ghost_rows [⟨"A1", "AMBIENT"⟩] [⟨"s1", "dairy", 1, "A1", "AMBIENT"⟩] = [] ∧
    ghost_report [⟨"A1", "AMBIENT"⟩] [⟨"s1", "dairy", 1, "A1", "AMBIENT"⟩] = .clean :=
  (ghost_bins_spec [⟨"A1", "AMBIENT"⟩] [⟨"s1", "dairy", 1, "A1", "AMBIENT"⟩]).2.1 (by decide)

/-! ## Decimal drift (lines 71-80)

```
upper_domain_limit = 25
lower_domain_limit = 0.01
p99 = sku_master["weight_kg"].quantile(0.995)
p001 = sku_master["weight_kg"].quantile(0.005)
decimal_drift = sku_master[(weight > min(upper_domain_limit, p99)) |
                           (weight < max(lower_domain_limit, p001))]
```
`Series.quantile` sorts the values and linearly interpolates at position
`q * (n - 1)`. -/

/-- `Series.quantile(q)` with the default linear interpolation: with the
values sorted ascending, the value at fractional position `q * (n - 1)`. -/
def quantile (l : List ℚ) (q : ℚ) : ℚ :=
  let s := l.insertionSort (· ≤ ·)
  let pos := q * ((s.length : ℚ) - 1)
  let i := (⌊pos⌋).toNat
  let lo := s.getD i 0
  lo + (pos - ((⌊pos⌋ : ℤ) : ℚ)) * (s.getD (i + 1) lo - lo)

/-- Line 74: the 99.5th percentile of the SKU weights. -/
def p99 (sku_master : List SkuRow) : ℚ :=
  quantile (sku_master.map SkuRow.weight_kg) (995/1000)

/-- Line 75: the 0.5th percentile of the SKU weights. -/
def p001 (sku_master : List SkuRow) : ℚ :=
  quantile (sku_master.map SkuRow.weight_kg) (5/1000)

/-- Lines 77-80 with the two domain limits as parameters: the SKU rows whose
weight falls outside the adaptive band. -/
def decimal_drift_with (upper_domain_limit lower_domain_limit : ℚ)
    (sku_master : List SkuRow) : List SkuRow :=
  sku_master.filter (fun r =>
    decide (r.weight_kg > min upper_domain_limit (p99 sku_master)) ||
    decide (r.weight_kg < max lower_domain_limit (p001 sku_master)))

/-- Lines 71-80: the detector with the hardcoded limits
`upper_domain_limit = 25`, `lower_domain_limit = 0.01`. -/
def decimal_drift (sku_master : List SkuRow) : List SkuRow :=
  decimal_drift_with 25 (1/100) sku_master

/-- The SKU master of the worked example: weights `[0.005, 1, 2, 3, 30]`. -/
def exampleSkus : List SkuRow :=
  [⟨"s1", "a", 1/200, "A1", "AMBIENT"⟩,
   ⟨"s2", "b", 1, "A2", "AMBIENT"⟩,
   ⟨"s3", "c", 2, "A3", "AMBIENT"⟩,
   ⟨"s4", "d", 3, "A4", "AMBIENT"⟩,
   ⟨"s5", "e", 30, "A5", "AMBIENT"⟩]

/-- C3: the decimal-drift detector flags exactly the SKUs whose weight is
strictly above `min(25, p99.5)` or strictly below `max(0.01, p0.5)`; on the
example master with weights `[0.005, 1, 2, 3, 30]` exactly the `0.005` and
`30` rows are flagged. -/
theorem decimal_drift_spec :
    (∀ (sku_master : List SkuRow) (r : SkuRow),
      r ∈ decimal_drift sku_master ↔ r ∈ sku_master ∧
        (r.weight_kg > min 25 (p99 sku_master) ∨
         r.weight_kg < max (1/100) (p001 sku_master))) ∧
    decimal_drift exampleSkus =
      [⟨"s1", "a", 1/200, "A1", "AMBIENT"⟩, ⟨"s5", "e", 30, "A5", "AMBIENT"⟩] := by
  constructor
  · intro sku_master r
    rw [decimal_drift, decimal_drift_with, List.mem_filter]
    simp [decide_eq_true_eq]
  · have h99 : p99 exampleSkus = 1473/50 := by
      norm_num [p99, quantile, exampleSkus, List.insertionSort, List.orderedInsert, List.getD,
        show Int.toNat 3 = 3 from rfl]
    have h001 : p001 exampleSkus = 249/10000 := by
      norm_num [p001, quantile, exampleSkus, List.insertionSort, List.orderedInsert, List.getD,
        show Int.toNat 0 = 0 from rfl]
    rw [decimal_drift, decimal_drift_with]
    rw [show exampleSkus.filter (fun r =>
        decide (r.weight_kg > min 25 (p99 exampleSkus)) ||
        decide (r.weight_kg < max (1/100) (p001 exampleSkus))) =
      exampleSkus.filter (fun r =>
        decide (r.weight_kg > 25) || decide (r.weight_kg < 249/10000)) from by
        rw [h99, h001, min_eq_left (by norm_num), max_eq_right (by norm_num)]]
    norm_num [exampleSkus, List.filter]

/-- C7: the flagged set is monotone in the domain limits — raising the upper
limit or lowering the lower limit can only shrink or preserve it. -/
theorem decimal_drift_monotone (U U' L L' : ℚ) (hU : U ≤ U') (hL : L' ≤ L)
    (sku_master : List SkuRow) :
    decimal_drift_with U' L' sku_master ⊆ decimal_drift_with U L sku_master := by
  intro r hr
  rw [decimal_drift_with, List.mem_filter] at hr ⊢
  refine ⟨hr.1, ?_⟩
  have hp := hr.2
  simp only [Bool.or_eq_true, decide_eq_true_eq] at hp ⊢
  rcases hp with h1 | h2
  · exact Or.inl (lt_of_le_of_lt (min_le_min hU le_rfl) h1)
  · exact Or.inr (lt_of_lt_of_le h2 (max_le_max hL le_rfl))

/-- Witness for C7: raising the upper limit from 25 to 26 and lowering the
lower limit from 0.01 to 0.005 on the example master. -/
theorem decimal_drift_monotone_witness :
    decimal_drift_with 26 (1/200) exampleSkus ⊆ decimal_drift_with 25 (1/100) exampleSkus :=
  decimal_drift_monotone 25 26 (1/100) (1/200) (by norm_num) (by norm_num) exampleSkus

/-! ## Temperature violations (lines 138-144)

```
warehouse_fixed = warehouse.rename(columns={"slot_id": "current_slot"})
temp_violations = sku_master.merge(warehouse_fixed, on="current_slot", how="left")
temp_violations = temp_violations[temp_violations["temp_req"] != temp_violations["temp_zone"]]
```
A left join keeps every SKU row; a SKU whose slot has no warehouse row gets a
missing `temp_zone`, and pandas `!=` is true against a missing value, so such
rows count as violations.  Outputs: the row count and the summed
`weight_kg`. -/

/-- The warehouse rows whose (renamed) slot identifier matches a slot code. -/
def slotMatches (warehouse : List SlotRow) (slot : String) : List SlotRow :=
  warehouse.filter (fun w => w.slot_id == slot)

/-- Lines 138-139: the left join of the SKU master with the warehouse slots on
the slot code; the second component is the joined `temp_zone` (missing when no
warehouse slot matches, repeated per match otherwise). -/
def sku_with_zone (sku_master : List SkuRow) (warehouse : List SlotRow) :
    List (SkuRow × Option String) :=
  sku_master.flatMap (fun r =>
    match slotMatches warehouse r.current_slot with
    | [] => [(r, none)]
    | ws => ws.map (fun w => (r, some w.temp_zone)))

/-- Line 140: the joined rows where `temp_req != temp_zone` (missing zones
compare as violating). -/
def temp_violations (sku_master : List SkuRow) (warehouse : List SlotRow) :
    List (SkuRow × Option String) :=
  (sku_with_zone sku_master warehouse).filter (fun p => decide (p.2 ≠ some p.1.temp_req))

/-- Line 143: `len(temp_violations)`. -/
def temp_violation_count (sku_master : List SkuRow) (warehouse : List SlotRow) : ℕ :=
  (temp_violations sku_master warehouse).length

/-- Line 144: `temp_violations['weight_kg'].sum()`. -/
def weight_at_risk (sku_master : List SkuRow) (warehouse : List SlotRow) : ℚ :=
  ((temp_violations sku_master warehouse).map (fun p => p.1.weight_kg)).sum

/-- C6: after the left join on the slot code, the violations are exactly the
joined rows whose required zone differs from the actual zone; every SKU whose
slot matches no warehouse slot is a violation (missing zone); the outputs are
the violation count and the summed weight of the violating rows. -/
theorem temp_violations_spec (sku_master : List SkuRow) (warehouse : List SlotRow) :
    (∀ p, p ∈ temp_violations sku_master warehouse ↔
      p ∈ sku_with_zone sku_master warehouse ∧ p.2 ≠ some p.1.temp_req) ∧
    (∀ r ∈ sku_master, (∀ w ∈ warehouse, w.slot_id ≠ r.current_slot) →
      (r, none) ∈ temp_violations sku_master warehouse) ∧
    temp_violation_count sku_master warehouse = (temp_violations sku_master warehouse).length ∧
    weight_at_risk sku_master warehouse =
      ((temp_violations sku_master warehouse).map (fun p => p.1.weight_kg)).sum := by
  refine ⟨fun p => ?_, fun r hr hnone => ?_, rfl, rfl⟩
  · rw [temp_violations, List.mem_filter]
    simp [decide_eq_true_eq]
  · have hfil : slotMatches warehouse r.current_slot = [] := by
      rw [slotMatches, List.filter_eq_nil_iff]
      intro w hw
      simpa using hnone w hw
    rw [temp_violations, List.mem_filter]
    constructor
    · refine List.mem_flatMap.mpr ⟨r, hr, ?_⟩
      rw [hfil]
      simp
    · simp

/-- Witness for C6: a SKU stored in a slot unknown to the warehouse is
reported as a violation with a missing zone. -/
theorem temp_violations_spec_witness :
    (⟨"s1", "dairy", 1, "Z9", "CHILL"⟩, (none : Option String)) ∈
      temp_violations [⟨"s1", "dairy", 1, "Z9", "CHILL"⟩] [⟨"A1", "AMBIENT"⟩] :=
  (temp_violations_spec [⟨"s1", "dairy", 1, "Z9", "CHILL"⟩] [⟨"A1", "AMBIENT"⟩]).2.1
    ⟨"s1", "dairy", 1, "Z9", "CHILL"⟩ (by simp) (by decide)

/-! ## Phase-1 roadmap (lines 200-208)

```
sku_velocity = orders.groupby("sku_id").size().reset_index(name="order_count")
phase1_skus = sku_velocity.sort_values("order_count", ascending=False)
                          .head(50).merge(sku_master, on="sku_id", how="left")
```
`groupby` lists the group keys in ascending order.  For a descending sort,
pandas (`pandas.core.sorting.nargsort`) computes an *ascending* argsort and
then reverses the whole index array; numpy's default sort is a stable
insertion sort on arrays this small, so equal counts come out in *reversed*
key order.  This is modelled as the reverse of a stable ascending insertion
sort.  The trailing left join repeats a row once per matching SKU-master
row. -/

/-- Ascending order-count comparison used by the sort on `order_count`. -/
def countLE (a b : String × ℕ) : Prop := a.2 ≤ b.2

instance : DecidableRel countLE := fun a b => inferInstanceAs (Decidable (a.2 ≤ b.2))

instance : IsTotal (String × ℕ) countLE := ⟨fun a b => le_total a.2 b.2⟩

instance : IsTrans (String × ℕ) countLE := ⟨fun _ _ _ h h2 => le_trans h h2⟩

/-- Code-point lexicographic comparison of character lists (the order python
uses on strings). -/
def lexLe : List Char → List Char → Bool
  | [], _ => true
  | _ :: _, [] => false
  | a :: as, b :: bs =>
    if a.toNat < b.toNat then true
    else if b.toNat < a.toNat then false
    else lexLe as bs

/-- Lexicographic order on strings, used for the ascending group keys. -/
def strLE (a b : String) : Prop := lexLe a.data b.data = true

instance : DecidableRel strLE := fun a b =>
  inferInstanceAs (Decidable (lexLe a.data b.data = true))

/-- Line 200: total order count per `sku_id`, keys ascending. -/
def sku_velocity (orders : List OrderRow) : List (String × ℕ) :=
  let ids := orders.map OrderRow.sku_id
  ((ids.insertionSort strLE).dedup).map (fun k => (k, ids.count k))

/-- `sort_values("order_count", ascending=False)`: the reverse of a stable
ascending sort (see the section comment). -/
def sort_values_desc (l : List (String × ℕ)) : List (String × ℕ) :=
  (l.insertionSort countLE).reverse

/-- Lines 201-206: top 50 SKUs by order count, left-joined with the SKU
master attributes. -/
def phase1_skus (orders : List OrderRow) (sku_master : List SkuRow) :
    List ((String × ℕ) × Option SkuRow) :=
  ((sort_values_desc (sku_velocity orders)).take 50).flatMap (fun v =>
    match skuMatches sku_master v.1 with
    | [] => [(v, none)]
    | ms => ms.map (fun m => (v, some m)))

/-- Two orders for two distinct SKUs, one order each (a tie). -/
def cexOrders : List OrderRow :=
  [⟨"o1", "s1", .raw "2024-01-01 10:00:00"⟩, ⟨"o2", "s2", .raw "2024-01-01 11:00:00"⟩]

/-- Fifty orders for fifty distinct single-letter SKU identifiers. -/
def manyOrders : List OrderRow :=
  (List.range 50).map (fun i => ⟨"o", String.mk [Char.ofNat (65 + i)], .raw ""⟩)

/-- A SKU master that lists the SKU `"A"` twice. -/
def dupMaster : List SkuRow :=
  [⟨String.mk ['A'], "a", 1, "A1", "AMBIENT"⟩, ⟨String.mk ['A'], "b", 2, "A2", "AMBIENT"⟩]

/-- When the SKU-master identifiers are distinct, at most one master row
matches any key. -/
theorem skuMatches_length_le_one (sku_master : List SkuRow)
    (hnodup : (sku_master.map SkuRow.sku_id).Nodup) (k : String) :
    (skuMatches sku_master k).length ≤ 1 := by
  rw [skuMatches]
  induction sku_master with
  | nil => simp
  | cons m rest ih =>
    rw [List.map_cons, List.nodup_cons] at hnodup
    rcases hbeq : (m.sku_id == k) with _ | _
    · simpa [List.filter_cons, hbeq] using ih hnodup.2
    · have hrest : rest.filter (fun w => w.sku_id == k) = [] := by
        rw [List.filter_eq_nil_iff]
        intro w hw hwk
        apply hnodup.1
        rw [List.mem_map]
        refine ⟨w, hw, ?_⟩
        have h1 : w.sku_id = k := by simpa using hwk
        have h2 : m.sku_id = k := by simpa using hbeq
        rw [h1, h2]
      simp [List.filter_cons, hbeq, hrest]

/-- Counterexample to C5: two SKUs tied at one order each come out in
*reversed* original order (`s2` before `s1`), not in the original relative
order; and with a SKU master that repeats a `sku_id`, the left join after
`head(50)` yields 51 rows, breaking the 50-row bound. -/
theorem phase1_skus_cex :
    (sku_velocity cexOrders).map Prod.fst = ["s1", "s2"] ∧
    (phase1_skus cexOrders []).map Prod.fst = [("s2", 1), ("s1", 1)] ∧
    (phase1_skus manyOrders dupMaster).length = 51 := by
  refine ⟨by decide, by decide, by decide⟩

/-- C5 (amended): the Phase-1 output is always sorted by total order count
non-increasing, and has at most 50 rows provided the SKU master's `sku_id`
values are distinct; ties between equal counts appear in reversed original
order (the descending sort reverses a stable ascending sort), not in the
original order. -/
theorem phase1_skus_spec (orders : List OrderRow) (sku_master : List SkuRow) :
    List.Pairwise (fun p q => q.1.2 ≤ p.1.2) (phase1_skus orders sku_master) ∧
    ((sku_master.map SkuRow.sku_id).Nodup → (phase1_skus orders sku_master).length ≤ 50) := by
  have hrow : ∀ (v : String × ℕ) (x : (String × ℕ) × Option SkuRow),
      x ∈ (match skuMatches sku_master v.1 with
        | [] => [(v, none)]
        | ms => ms.map (fun m => (v, some m))) → x.1 = v := by
    intro v x hx
    rcases h : skuMatches sku_master v.1 with _ | ⟨m, ms⟩
    · rw [h] at hx
      simp at hx
      rw [hx]
    · rw [h] at hx
      rw [List.mem_map] at hx
      obtain ⟨m', _, hm'⟩ := hx
      rw [← hm']
  constructor
  · rw [phase1_skus, List.pairwise_flatMap]
    constructor
    · intro v _
      apply List.pairwise_of_forall_mem_list
      intro x hx y hy
      rw [hrow v x hx, hrow v y hy]
    · have hsorted : List.Pairwise countLE ((sku_velocity orders).insertionSort countLE) :=
        List.sorted_insertionSort countLE (sku_velocity orders)
      have hrev : List.Pairwise (fun a b : String × ℕ => b.2 ≤ a.2)
          (sort_values_desc (sku_velocity orders)) := by
        rw [sort_values_desc, List.pairwise_reverse]
        exact hsorted
      have htake := hrev.sublist (List.take_sublist 50 _)
      refine htake.imp ?_
      intro a b hab x hx y hy
      rw [hrow a x hx, hrow b y hy]
      exact hab
  · intro hnodup
    rw [phase1_skus, List.length_flatMap]
    have hle1 : ∀ x ∈ (((sort_values_desc (sku_velocity orders)).take 50).map
        (fun v => (match skuMatches sku_master v.1 with
          | [] => [(v, none)]
          | ms => ms.map (fun m => (v, some m)) : List ((String × ℕ) × Option SkuRow)).length)),
        x ≤ 1 := by
      intro x hx
      rw [List.mem_map] at hx
      obtain ⟨v, _, hv⟩ := hx
      split at hv
      · simp at hv
        omega
      · have hm := skuMatches_length_le_one sku_master hnodup v.1
        simp at hv
        omega
    have hsum := List.sum_le_card_nsmul _ 1 hle1
    simp only [List.length_map, smul_eq_mul, mul_one, List.length_take] at hsum ⊢
    exact le_trans hsum (min_le_left _ _)

/-- Witness for C5 (amended), at the tied two-order input with a one-row SKU
master whose identifiers are trivially distinct. -/
theorem phase1_skus_spec_witness :
    (phase1_skus cexOrders [⟨"s1", "dairy", 1, "A1", "AMBIENT"⟩]).length ≤ 50 :=
  (phase1_skus_spec cexOrders [⟨"s1", "dairy", 1, "A1", "AMBIENT"⟩]).2 (by decide)

/-! ## Loaded state and in-place mutations (lines 19-31 and 149)

`load_data` returns the five tables; then
```
orders["order_timestamp"] = pd.to_datetime(orders["order_timestamp"])
picker_movement["order_timestamp"] = pd.to_datetime(picker_movement["order_timestamp"])
...
picker_movement["hour"] = picker_movement["order_timestamp"].dt.hour
```
assign columns *in place* on the loaded frames.  Every other operation in the
script (`merge`, `rename`, boolean-mask selection, `groupby`, `head`,
`sort_values`) builds a new frame.  The slotting plan is an opaque passthrough
table. -/

/-- The slotting-plan table: a header row of column names plus data rows; a
cell is `none` for a missing value (an empty CSV field). -/
structure Table where
  header : List String
  rows : List (List (Option String))
deriving DecidableEq, Repr

/-- The five tables as returned by `load_data` (lines 19-28). -/
structure LoadedTables where
  picker_movement : List PickerRow
  orders : List OrderRow
  warehouse : List SlotRow
  sku_master : List SkuRow
  final_slotting : Table
deriving DecidableEq, Repr

/-- `pd.to_datetime` on a timestamp cell: raw text becomes the structured
datetime (already-structured cells are unchanged). -/
def to_datetime : TsCell → TsCell
  | .raw s => .parsed s
  | .parsed s => .parsed s

/-- The state of the five loaded tables after the whole report script has run:
lines 30, 31 and 149 re-assign the two timestamp columns in place and add an
`hour` column to `picker_movement`.  All derived frames are new objects. -/
def run_report (t : LoadedTables) : LoadedTables :=
  { t with
    orders := t.orders.map (fun o =>
      { o with order_timestamp := to_datetime o.order_timestamp }),
    picker_movement := t.picker_movement.map (fun p =>
      { p with order_timestamp := to_datetime p.order_timestamp,
               hour := some (hourOf (to_datetime p.order_timestamp)) }) }

/-- A concrete loaded state with one row per table. -/
def loadedEx : LoadedTables :=
  { picker_movement := [⟨"p1", "o1", "s1", 5, .raw "2024-01-01 10:00:00", none⟩],
    orders := [⟨"o1", "s1", .raw "2024-01-01 10:00:00"⟩],
    warehouse := [⟨"A1", "AMBIENT"⟩],
    sku_master := [⟨"s1", "dairy", 1, "A1", "AMBIENT"⟩],
    final_slotting := ⟨["sku_id", "slot"], [[some "s1", some "A1"]]⟩ }

/-- Counterexample to C9: the report pipeline does *not* leave all five loaded
tables unchanged — the orders table's timestamp column is replaced by its
parsed form (line 30) and the picker-movement table additionally gains an
`hour` column (lines 31 and 149), both in place. -/
theorem run_report_mutates :
    (run_report loadedEx).orders ≠ loadedEx.orders ∧
    (run_report loadedEx).picker_movement ≠ loadedEx.picker_movement :=
  ⟨by decide, by decide⟩

/-- C9 (amended): the warehouse, SKU-master and slotting-plan tables are
unchanged by the report pipeline, and every derived value is a pure function
of the loaded tables; the orders and picker-movement tables, however, are
mutated in place: their timestamp column is parsed (lines 30-31) and
`picker_movement` gains an `hour` column (line 149). -/
theorem run_report_spec (t : LoadedTables) :
    (run_report t).warehouse = t.warehouse ∧
    (run_report t).sku_master = t.sku_master ∧
    (run_report t).final_slotting = t.final_slotting ∧
    (run_report t).orders =
      t.orders.map (fun o => { o with order_timestamp := to_datetime o.order_timestamp }) ∧
    (run_report t).picker_movement =
      t.picker_movement.map (fun p =>
        { p with order_timestamp := to_datetime p.order_timestamp,
                 hour := some (hourOf (to_datetime p.order_timestamp)) }) :=
  ⟨rfl, rfl, rfl, rfl, rfl⟩

/-! ## CSV export and re-import of the slotting plan (lines 241-246)

`st.download_button(..., final_slotting.to_csv(index=False), ...)` serializes
the slotting-plan table as comma-delimited text.  The model below embeds the
CSV dialect pandas uses: minimal quoting with `"` doubled inside quoted
fields, `\n` line terminators, missing values written as empty fields; on
re-import, fields are read with the same quoting rules, an empty field is a
missing value (the default NA handling), blank lines are skipped
(`skip_blank_lines`), the first record is the header, short rows are padded
with missing values and overlong rows are an error. -/

/-- A character that terminates an unquoted field: `,`, `\n` or `\r`. -/
def isSep (c : Char) : Bool := c == ',' || c == '\n' || c == '\r'

/-- Minimal quoting: a field is quoted iff it contains a delimiter, a quote
or a line break. -/
def needsQuote (content : List Char) : Bool :=
  content.any (fun c => c == ',' || c == '"' || c == '\n' || c == '\r')

/-- Double every quote character (the escaping used inside quoted fields). -/
def escapeQuotes : List Char → List Char
  | [] => []
  | c :: cs => if c = '"' then '"' :: '"' :: escapeQuotes cs else c :: escapeQuotes cs

/-- Serialize one field content with minimal quoting. -/
def encodeField (content : List Char) : List Char :=
  if needsQuote content then '"' :: (escapeQuotes content ++ ['"']) else content

/-- The text of a cell: a missing value renders as the empty field. -/
def contentOf : Option String → List Char
  | none => []
  | some s => s.data

/-- Join the encoded fields of one record with commas and terminate it with a
newline. -/
def encodeRecord : List (List Char) → List Char
  | [] => ['\n']
  | [c] => encodeField c ++ ['\n']
  | c :: cs => encodeField c ++ ',' :: encodeRecord cs

/-- `DataFrame.to_csv(index=False)`: the header record followed by one record
per row. -/
def to_csv (t : Table) : String :=
  String.mk (encodeRecord (t.header.map String.data) ++
    t.rows.flatMap (fun r => encodeRecord (r.map contentOf)))

/-- Parse the inside of a quoted field, starting just after the opening
quote; a doubled quote is a literal quote.  Returns the content and the
remainder after the closing quote. -/
def parseQuoted : List Char → Option (List Char × List Char)
  | [] => none
  | c :: rest =>
    if c = '"' then
      match rest with
      | c2 :: rest2 =>
        if c2 = '"' then (parseQuoted rest2).map (fun p => ('"' :: p.1, p.2))
        else some ([], rest)
      | [] => some ([], [])
    else (parseQuoted rest).map (fun p => (c :: p.1, p.2))

/-- Parse an unquoted field: everything up to a separator or the end. -/
def parseUnquoted : List Char → List Char × List Char
  | [] => ([], [])
  | c :: rest =>
    if isSep c then ([], c :: rest)
    else
      let p := parseUnquoted rest
      (c :: p.1, p.2)

/-- Parse one field.  After a quoted field only a separator or the end of the
input may follow. -/
def parseField : List Char → Option (List Char × List Char)
  | [] => some ([], [])
  | c :: rest =>
    if c = '"' then
      (parseQuoted rest).bind (fun p =>
        match p.2 with
        | [] => some (p.1, [])
        | c2 :: _ => if isSep c2 then some p else none)
    else some (parseUnquoted (c :: rest))

/-- Parse the fields of one record and consume its line terminator (`\n`,
`\r\n` or `\r`). -/
def parseRecord : ℕ → List Char → Option (List (List Char) × List Char)
  | 0, _ => none
  | fuel + 1, cs =>
    (parseField cs).bind (fun p =>
      match p.2 with
      | [] => some ([p.1], [])
      | c :: rest =>
        if c = ',' then (parseRecord fuel rest).map (fun q => (p.1 :: q.1, q.2))
        else if c = '\r' then
          match rest with
          | c2 :: rest2 => if c2 = '\n' then some ([p.1], rest2) else some ([p.1], rest)
          | [] => some ([p.1], [])
        else some ([p.1], rest))

/-- Parse every record, skipping blank lines (`skip_blank_lines`). -/
def parseRecords : ℕ → List Char → Option (List (List (List Char)))
  | 0, _ => none
  | _ + 1, [] => some []
  | fuel + 1, c :: rest =>
    if c = '\n' then parseRecords fuel rest
    else if c = '\r' then
      match rest with
      | c2 :: rest2 =>
        if c2 = '\n' then parseRecords fuel rest2 else parseRecords fuel rest
      | [] => some []
    else
      (parseRecord (fuel + 1) (c :: rest)).bind (fun p =>
        (parseRecords fuel p.2).map (fun rs => p.1 :: rs))

/-- Decode a field content into a cell: the empty field is a missing value
(the reader's default NA handling). -/
def cellOfContent (content : List Char) : Option String :=
  if content = [] then none else some (String.mk content)

/-- `Option`-valued map over a list, failing when any element fails. -/
def mapMaybe (f : α → Option β) : List α → Option (List β)
  | [] => some []
  | a :: as => (f a).bind (fun b => (mapMaybe f as).map (fun bs => b :: bs))

/-- `pd.read_csv` on the exported text: the first record is the header; data
rows shorter than the header are padded with missing values, longer ones are
an error. -/
def read_csv (s : String) : Option Table :=
  (parseRecords (s.data.length + 1) s.data).bind (fun recs =>
    match recs with
    | [] => none
    | h :: rs =>
      let header := h.map (fun c => String.mk c)
      (mapMaybe (fun r =>
        if header.length < r.length then none
        else some (r.map cellOfContent ++
          List.replicate (header.length - r.length) none)) rs).map
        (fun rows => ⟨header, rows⟩))

/-! ### Round-trip lemmas for the CSV model -/

/-- The input is exhausted or continues with a separator. -/
def headSep : List Char → Bool
  | [] => true
  | c :: _ => isSep c

theorem isSep_of_headSep {c : Char} {cs : List Char} (h : headSep (c :: cs) = true) :
    c = ',' ∨ c = '\n' ∨ c = '\r' := by
  rw [headSep, isSep] at h
  simp only [Bool.or_eq_true, beq_iff_eq, or_assoc] at h
  exact h

theorem sep_ne_quote {c : Char} {cs : List Char} (h : headSep (c :: cs) = true) : c ≠ '"' := by
  rcases isSep_of_headSep h with h1 | h1 | h1 <;> rw [h1] <;> decide

theorem parseQuoted_encode (content rest : List Char) (h : headSep rest = true) :
    parseQuoted (escapeQuotes content ++ '"' :: rest) = some (content, rest) := by
  induction content with
  | nil =>
    rw [escapeQuotes, List.nil_append, parseQuoted.eq_def]
    cases rest with
    | nil => simp
    | cons c2 rest2 => simp [sep_ne_quote h]
  | cons c cs ih =>
    by_cases hc : c = '"'
    · subst hc
      rw [escapeQuotes, if_pos rfl, List.cons_append, List.cons_append,
        parseQuoted.eq_def]
      simp [ih]
    · rw [escapeQuotes, if_neg hc, List.cons_append, parseQuoted.eq_def]
      simp [hc, ih]

theorem parseUnquoted_plain (content rest : List Char)
    (hc : ∀ c ∈ content, isSep c = false) (h : headSep rest = true) :
    parseUnquoted (content ++ rest) = (content, rest) := by
  induction content with
  | nil =>
    rw [List.nil_append, parseUnquoted.eq_def]
    cases rest with
    | nil => simp
    | cons c2 rest2 =>
      rw [headSep] at h
      simp [h]
  | cons c cs ih =>
    rw [List.cons_append, parseUnquoted.eq_def]
    simp only [hc c (by simp), Bool.false_eq_true, if_false]
    rw [ih (fun x hx => hc x (by simp [hx]))]

theorem not_needsQuote {content : List Char} (h : needsQuote content = false) :
    ∀ c ∈ content, isSep c = false ∧ c ≠ '"' := by
  intro c hm
  rw [needsQuote, List.any_eq_false] at h
  have hc := h c hm
  simp only [Bool.or_eq_true, beq_iff_eq] at hc
  push_neg at hc
  constructor
  · rw [isSep]
    simp only [Bool.or_eq_false_iff, beq_eq_false_iff_ne]
    tauto
  · tauto

theorem parseField_encode (content rest : List Char) (h : headSep rest = true) :
    parseField (encodeField content ++ rest) = some (content, rest) := by
  rw [encodeField]
  rcases hq : needsQuote content with _ | _
  · rw [if_neg (by simp)]
    cases content with
    | nil =>
      rw [List.nil_append, parseField.eq_def]
      cases rest with
      | nil => simp
      | cons c2 rest2 =>
        have hsep : isSep c2 = true := by rw [headSep] at h; exact h
        simp only [sep_ne_quote h, if_false]
        rw [parseUnquoted.eq_def]
        simp [hsep]
    | cons c cs =>
      have hprops := not_needsQuote hq
      have hcq : c ≠ '"' := (hprops c (by simp)).2
      rw [List.cons_append, parseField.eq_def]
      simp only [hcq, if_false, ← List.cons_append]
      rw [parseUnquoted_plain (c :: cs) rest (fun x hx => (hprops x hx).1) h]
  · rw [if_pos rfl]
    have hassoc : ('"' :: (escapeQuotes content ++ ['"'])) ++ rest
        = '"' :: (escapeQuotes content ++ '"' :: rest) := by simp
    rw [hassoc, parseField.eq_def]
    simp only [if_pos rfl]
    rw [parseQuoted_encode content rest h]
    cases rest with
    | nil => simp
    | cons c2 rest2 =>
      have hsep : isSep c2 = true := by rw [headSep] at h; exact h
      simp [hsep]

theorem parseRecord_succ (fuel : ℕ) (cs : List Char) :
    parseRecord (fuel + 1) cs = (parseField cs).bind (fun p =>
      match p.2 with
      | [] => some ([p.1], [])
      | c :: rest =>
        if c = ',' then (parseRecord fuel rest).map (fun q => (p.1 :: q.1, q.2))
        else if c = '\r' then
          match rest with
          | c2 :: rest2 => if c2 = '\n' then some ([p.1], rest2) else some ([p.1], rest)
          | [] => some ([p.1], [])
        else some ([p.1], rest)) := rfl

theorem parseRecord_encode (contents : List (List Char)) :
    ∀ (fuel : ℕ) (rest : List Char), contents ≠ [] → contents.length ≤ fuel →
    parseRecord fuel (encodeRecord contents ++ rest) = some (contents, rest) := by
  induction contents with
  | nil => intro fuel rest hne _; exact absurd rfl hne
  | cons c cs ih =>
    intro fuel rest _ hlen
    cases fuel with
    | zero => simp at hlen
    | succ f =>
      cases cs with
      | nil =>
        have hassoc : encodeRecord [c] ++ rest = encodeField c ++ '\n' :: rest := by
          rw [encodeRecord]
          simp
        rw [hassoc, parseRecord_succ]
        rw [parseField_encode c ('\n' :: rest) (by rw [headSep]; decide)]
        simp [show ('\n' : Char) ≠ ',' by decide, show ('\n' : Char) ≠ '\r' by decide]
      | cons c2 cs2 =>
        have hassoc : encodeRecord (c :: c2 :: cs2) ++ rest
            = encodeField c ++ ',' :: (encodeRecord (c2 :: cs2) ++ rest) := by
          rw [encodeRecord] <;> simp
        rw [hassoc, parseRecord_succ]
        rw [parseField_encode c _ (by rw [headSep]; decide)]
        have hlen2 : (c2 :: cs2).length ≤ f := by
          simp only [List.length_cons] at hlen ⊢
          omega
        simp [ih f rest (List.cons_ne_nil c2 cs2) hlen2]

theorem not_sep_chars {c : Char} (h : isSep c = false) : c ≠ '\n' ∧ c ≠ '\r' := by
  rw [isSep] at h
  simp only [Bool.or_eq_false_iff, beq_eq_false_iff_ne] at h
  exact ⟨h.1.2, h.2⟩

/-- A non-empty record other than `[[]]` serializes to a line that does not
begin with a line terminator. -/
theorem encodeRecord_head (r : List (List Char)) (hne : r ≠ []) (hblank : r ≠ [[]]) :
    ∃ c cs, encodeRecord r = c :: cs ∧ c ≠ '\n' ∧ c ≠ '\r' := by
  cases r with
  | nil => exact absurd rfl hne
  | cons f fs =>
    have htail : ∃ t, encodeRecord (f :: fs) = encodeField f ++ t := by
      cases fs with
      | nil => exact ⟨['\n'], by rw [encodeRecord]⟩
      | cons f2 fs2 =>
        refine ⟨',' :: encodeRecord (f2 :: fs2), ?_⟩
        rw [encodeRecord] <;> simp
    obtain ⟨t, ht⟩ := htail
    rcases hq : needsQuote f with _ | _
    · cases f with
      | nil =>
        cases fs with
        | nil => exact absurd rfl hblank
        | cons f2 fs2 =>
          refine ⟨',', encodeRecord (f2 :: fs2), ?_, by decide, by decide⟩
          rw [show encodeRecord ([] :: f2 :: fs2)
              = encodeField [] ++ ',' :: encodeRecord (f2 :: fs2) from by
            rw [encodeRecord] <;> simp]
          rfl
      | cons fc fcs =>
        have hf : encodeField (fc :: fcs) = fc :: fcs := by
          rw [encodeField, if_neg (by simp [hq])]
        have hsep := (not_needsQuote hq fc (by simp)).1
        have hc := not_sep_chars hsep
        exact ⟨fc, fcs ++ t, by rw [ht, hf]; simp, hc.1, hc.2⟩
    · have hf : ∃ q, encodeField f = '"' :: q := by
        rw [encodeField, if_pos hq]
        exact ⟨_, rfl⟩
      obtain ⟨q, hfq⟩ := hf
      exact ⟨'"', q ++ t, by rw [ht, hfq]; simp, by decide, by decide⟩

theorem escapeQuotes_length (content : List Char) :
    content.length ≤ (escapeQuotes content).length := by
  induction content with
  | nil => simp [escapeQuotes]
  | cons c cs ih =>
    rw [escapeQuotes]
    by_cases hc : c = '"'
    · rw [if_pos hc]
      simp only [List.length_cons]
      omega
    · rw [if_neg hc]
      simp only [List.length_cons]
      omega

theorem encodeField_length_ge (content : List Char) :
    content.length ≤ (encodeField content).length := by
  rw [encodeField]
  split
  · have h := escapeQuotes_length content
    simp only [List.length_cons, List.length_append, List.length_singleton]
    omega
  · exact le_refl _

theorem encodeRecord_length_ge (r : List (List Char)) :
    r.length ≤ (encodeRecord r).length := by
  induction r with
  | nil => simp [encodeRecord]
  | cons c cs ih =>
    cases cs with
    | nil =>
      rw [encodeRecord]
      simp
    | cons c2 cs2 =>
      rw [show encodeRecord (c :: c2 :: cs2)
          = encodeField c ++ ',' :: encodeRecord (c2 :: cs2) from by
        rw [encodeRecord] <;> simp]
      simp only [List.length_append, List.length_cons] at ih ⊢
      omega

theorem encodeRecord_length_pos (r : List (List Char)) :
    1 ≤ (encodeRecord r).length := by
  cases r with
  | nil => simp [encodeRecord]
  | cons c cs =>
    cases cs with
    | nil =>
      rw [encodeRecord]
      simp
    | cons c2 cs2 =>
      rw [show encodeRecord (c :: c2 :: cs2)
          = encodeField c ++ ',' :: encodeRecord (c2 :: cs2) from by
        rw [encodeRecord] <;> simp]
      simp only [List.length_append, List.length_cons]
      omega

/-- Fuel sufficient for `parseRecords` to parse a serialized record list. -/
def recsFuel : List (List (List Char)) → ℕ
  | [] => 1
  | r :: rs => max r.length (1 + recsFuel rs)

theorem recsFuel_le (recs : List (List (List Char))) :
    recsFuel recs ≤ (recs.flatMap encodeRecord).length + 1 := by
  induction recs with
  | nil => simp [recsFuel]
  | cons r rs ih =>
    rw [recsFuel, List.flatMap_cons, List.length_append]
    have h1 := encodeRecord_length_ge r
    have h2 := encodeRecord_length_pos r
    omega

theorem parseRecords_succ_cons (fuel : ℕ) (c : Char) (rest : List Char) :
    parseRecords (fuel + 1) (c :: rest) =
      if c = '\n' then parseRecords fuel rest
      else if c = '\r' then
        match rest with
        | c2 :: rest2 =>
          if c2 = '\n' then parseRecords fuel rest2 else parseRecords fuel rest
        | [] => some []
      else
        (parseRecord (fuel + 1) (c :: rest)).bind (fun p =>
          (parseRecords fuel p.2).map (fun rs => p.1 :: rs)) := rfl

theorem parseRecords_encode (recs : List (List (List Char))) :
    ∀ fuel : ℕ, (∀ r ∈ recs, r ≠ [] ∧ r ≠ [[]]) → recsFuel recs ≤ fuel →
    parseRecords fuel (recs.flatMap encodeRecord) = some recs := by
  induction recs with
  | nil =>
    intro fuel _ hf
    cases fuel with
    | zero => rw [recsFuel] at hf; omega
    | succ f => simp [parseRecords]
  | cons r rs ih =>
    intro fuel hwf hf
    cases fuel with
    | zero => rw [recsFuel] at hf; omega
    | succ f =>
      rw [recsFuel] at hf
      obtain ⟨c, cs, henc, hn, hr⟩ :=
        encodeRecord_head r (hwf r (by simp)).1 (hwf r (by simp)).2
      rw [List.flatMap_cons, henc, List.cons_append, parseRecords_succ_cons,
        if_neg hn, if_neg hr]
      have hback : c :: (cs ++ rs.flatMap encodeRecord)
          = encodeRecord r ++ rs.flatMap encodeRecord := by
        rw [henc, List.cons_append]
      rw [hback, parseRecord_encode r (f + 1) (rs.flatMap encodeRecord)
        (hwf r (by simp)).1 (le_trans (le_max_left _ _) hf)]
      rw [Option.some_bind]
      rw [ih f (fun x hx => hwf x (by simp [hx])) (by omega)]
      rfl

/-- Every record produced by `parseRecord` has at least one field. -/
theorem parseRecord_ne_nil (fuel : ℕ) :
    ∀ (cs : List Char) (r : List (List Char)) (rest : List Char),
    parseRecord fuel cs = some (r, rest) → r ≠ [] := by
  induction fuel with
  | zero =>
    intro cs r rest h
    rw [show parseRecord 0 cs = none from rfl] at h
    exact absurd h (by simp)
  | succ f ih =>
    intro cs r rest h
    rw [parseRecord_succ] at h
    rcases hp : parseField cs with _ | p
    · rw [hp] at h
      simp at h
    · rw [hp, Option.some_bind] at h
      split at h
      · simp at h
        rw [← h.1]
        simp
      · split at h
        · rcases hq : parseRecord f _ with _ | q
          · rw [hq] at h
            simp at h
          · rw [hq] at h
            simp at h
            rw [← h.1]
            simp
        · split at h
          · split at h
            · split at h
              · simp at h
                rw [← h.1]
                simp
              · simp at h
                rw [← h.1]
                simp
            · simp at h
              rw [← h.1]
              simp
          · simp at h
            rw [← h.1]
            simp

/-- Every record in a `parseRecords` result has at least one field. -/
theorem parseRecords_ne_nil (fuel : ℕ) :
    ∀ (cs : List Char) (recs : List (List (List Char))),
    parseRecords fuel cs = some recs → ∀ r ∈ recs, r ≠ [] := by
  induction fuel with
  | zero =>
    intro cs recs h
    rw [show parseRecords 0 cs = none from rfl] at h
    exact absurd h (by simp)
  | succ f ih =>
    intro cs recs h
    cases cs with
    | nil =>
      rw [show parseRecords (f + 1) [] = some [] from rfl] at h
      simp at h
      subst h
      simp
    | cons c rest =>
      rw [parseRecords_succ_cons] at h
      split at h
      · exact ih rest recs h
      · split at h
        · split at h
          · split at h
            · exact ih _ recs h
            · exact ih _ recs h
          · simp at h
            subst h
            simp
        · rcases hp : parseRecord (f + 1) (c :: rest) with _ | p
          · rw [hp] at h
            simp at h
          · rw [hp, Option.some_bind] at h
            rcases hq : parseRecords f p.2 with _ | rs
            · rw [hq] at h
              simp at h
            · rw [hq] at h
              simp at h
              intro r hr
              rw [← h] at hr
              rcases List.mem_cons.mp hr with rfl | hr2
              · exact parseRecord_ne_nil (f + 1) (c :: rest) p.1 p.2 hp
              · exact ih p.2 rs hq r hr2

/-- Decoding inverts the cell text. -/
theorem contentOf_cellOfContent (content : List Char) :
    contentOf (cellOfContent content) = content := by
  rw [cellOfContent]
  split
  · rename_i h
    rw [contentOf, h]
  · rw [contentOf]

/-- `cellOfContent` never produces the empty string as a present value. -/
theorem cellOfContent_ne_some_empty (content : List Char) :
    cellOfContent content ≠ some "" := by
  rw [cellOfContent]
  split
  · simp
  · rename_i h
    intro heq
    apply h
    have := congrArg String.data (Option.some.inj heq)
    simpa using this

/-- Any cell other than a present empty string round-trips. -/
theorem cellOfContent_contentOf (cell : Option String) (h : cell ≠ some "") :
    cellOfContent (contentOf cell) = cell := by
  cases cell with
  | none => rfl
  | some s =>
    have hne : s.data ≠ [] := by
      intro hd
      apply h
      have hs : s = "" := by
        cases s
        simp_all
      rw [hs]
    rw [contentOf, cellOfContent, if_neg hne]

theorem mapMaybe_map (rows : List β) (g : β → α) (f : α → Option β)
    (h : ∀ r ∈ rows, f (g r) = some r) : mapMaybe f (rows.map g) = some rows := by
  induction rows with
  | nil => rfl
  | cons r rs ih =>
    rw [List.map_cons, mapMaybe, h r (by simp), Option.some_bind,
      ih (fun x hx => h x (by simp [hx]))]
    rfl

theorem mapMaybe_mem (f : α → Option β) (l : List α) (l' : List β)
    (h : mapMaybe f l = some l') : ∀ b ∈ l', ∃ a ∈ l, f a = some b := by
  induction l generalizing l' with
  | nil =>
    rw [mapMaybe] at h
    simp at h
    subst h
    simp
  | cons a as ih =>
    rw [mapMaybe] at h
    rcases hf : f a with _ | b0
    · rw [hf] at h
      simp at h
    · rw [hf, Option.some_bind] at h
      rcases hm : mapMaybe f as with _ | bs
      · rw [hm] at h
        simp at h
      · rw [hm] at h
        simp at h
        intro b hb
        rw [← h] at hb
        rcases List.mem_cons.mp hb with rfl | hb2
        · exact ⟨a, by simp, hf⟩
        · obtain ⟨a', ha', hfa⟩ := ih bs hm b hb2
          exact ⟨a', by simp [ha'], hfa⟩

/-- Serialize-then-reparse is the identity on any table whose header is
non-empty and not the single empty name, whose rows all have the header's
width, whose present cells are non-empty strings, and none of whose rows is a
single missing cell (those serialize to blank lines, which the reader
skips). -/
theorem read_csv_to_csv (t : Table)
    (hhdr : t.header ≠ [])
    (hhdrb : t.header ≠ [""])
    (hrows : ∀ r ∈ t.rows, r.length = t.header.length)
    (hcells : ∀ r ∈ t.rows, ∀ c ∈ r, c ≠ some "")
    (hblank : ∀ r ∈ t.rows, r ≠ [none]) :
    read_csv (to_csv t) = some t := by
  have hflat : (to_csv t).data
      = ((t.header.map String.data) :: t.rows.map (fun r => r.map contentOf)).flatMap
          encodeRecord := by
    show encodeRecord (t.header.map String.data) ++
        t.rows.flatMap (fun r => encodeRecord (r.map contentOf)) = _
    rw [List.flatMap_cons, List.flatMap_map]
  have hwf : ∀ r ∈ (t.header.map String.data) :: t.rows.map (fun r => r.map contentOf),
      r ≠ [] ∧ r ≠ [[]] := by
    intro r hr
    rcases List.mem_cons.mp hr with rfl | hr2
    · constructor
      · simp [hhdr]
      · intro hbad
        apply hhdrb
        rcases hhd : t.header with _ | ⟨a, as⟩
        · rw [hhd] at hbad
          simp at hbad
        · rw [hhd] at hbad
          simp at hbad
          obtain ⟨h1, h2⟩ := hbad
          have ha : a = "" := by
            cases a
            simp_all
          rw [ha, h2]
    · rw [List.mem_map] at hr2
      obtain ⟨row, hrow, rfl⟩ := hr2
      have hlenr := hrows row hrow
      have hrne : row ≠ [] := by
        intro hbad
        rw [hbad] at hlenr
        simp at hlenr
        exact hhdr (List.length_eq_zero.mp hlenr.symm)
      constructor
      · simp [hrne]
      · intro hbad
        rcases hrowshape : row with _ | ⟨c0, row'⟩
        · exact hrne hrowshape
        · rw [hrowshape] at hbad
          simp at hbad
          obtain ⟨hc0, hrow'⟩ := hbad
          rcases c0 with _ | s0
          · exact hblank row hrow (by rw [hrowshape, hrow'])
          · have hs0 : s0 = "" := by
              rw [contentOf] at hc0
              cases s0
              simp_all
            exact hcells row hrow (some s0) (by rw [hrowshape]; simp) (by rw [hs0])
  have hparse : parseRecords ((to_csv t).data.length + 1) (to_csv t).data
      = some ((t.header.map String.data) :: t.rows.map (fun r => r.map contentOf)) := by
    rw [hflat]
    exact parseRecords_encode _ _ hwf (recsFuel_le _)
  have hh : (t.header.map String.data).map (fun c => String.mk c) = t.header := by
    rw [List.map_map]
    exact (List.map_congr_left (fun s _ => rfl)).trans (List.map_id' t.header)
  have hmapM : mapMaybe (fun r =>
      if t.header.length < r.length then none
      else some (r.map cellOfContent ++ List.replicate (t.header.length - r.length) none))
      (t.rows.map (fun r => r.map contentOf)) = some t.rows := by
    apply mapMaybe_map
    intro r hr
    have hlenr : (r.map contentOf).length = t.header.length := by
      simp [hrows r hr]
    rw [if_neg (by rw [hlenr]; omega), hlenr, Nat.sub_self, List.replicate_zero,
      List.append_nil, List.map_map]
    have hmapr : r.map (fun c => cellOfContent (contentOf c)) = r :=
      (List.map_congr_left
        (fun c hc => cellOfContent_contentOf c (hcells r hr c hc))).trans (List.map_id' r)
    rw [show (cellOfContent ∘ contentOf) = fun c => cellOfContent (contentOf c) from rfl,
      hmapr]
  rw [read_csv, hparse, Option.some_bind]
  simp only [hh, hmapM, Option.map_some]
  rfl

/-- C8 (amended): serializing any loaded slotting-plan table and re-parsing
the bytes returns the table exactly, provided no record of the table
serializes to a blank line — the header is not a single empty name and no row
is a single missing cell (in particular any table with at least two columns
qualifies).  A single-column table with a missing-value row is a genuine
exception: its row serializes to the empty line, which the reader skips. -/
theorem slotting_roundtrip (s : String) (t : Table)
    (hload : read_csv s = some t)
    (hhdrb : t.header ≠ [""])
    (hblank : ∀ r ∈ t.rows, r ≠ [none]) :
    read_csv (to_csv t) = some t := by
  rw [read_csv] at hload
  rcases hp : parseRecords (s.data.length + 1) s.data with _ | recs
  · rw [hp] at hload
    simp at hload
  · rw [hp, Option.some_bind] at hload
    cases recs with
    | nil => simp at hload
    | cons h0 rs =>
      rw [Option.map_eq_some'] at hload
      obtain ⟨rows, hmm2, hT⟩ := hload
      have hh0 : h0 ≠ [] :=
        parseRecords_ne_nil (s.data.length + 1) s.data (h0 :: rs) hp h0 (by simp)
      apply read_csv_to_csv
      · rw [← hT]
        simp [hh0]
      · rw [← hT] at hhdrb ⊢
        exact hhdrb
      · intro r hr
        rw [← hT] at hr ⊢
        simp only at hr ⊢
        obtain ⟨rec, _, hrec⟩ := mapMaybe_mem _ rs rows hmm2 r hr
        split at hrec
        · exact absurd hrec (by simp)
        · rename_i hlt
          simp only [Option.some_inj] at hrec
          simp only [List.length_map] at hlt
          rw [← hrec]
          simp only [List.length_append, List.length_map, List.length_replicate]
          omega
      · intro r hr c hc
        rw [← hT] at hr
        simp only at hr
        obtain ⟨rec, _, hrec⟩ := mapMaybe_mem _ rs rows hmm2 r hr
        split at hrec
        · exact absurd hrec (by simp)
        · simp only [Option.some_inj] at hrec
          rw [← hrec] at hc
          rcases List.mem_append.mp hc with hc1 | hc2
          · obtain ⟨content, _, hcont⟩ := List.mem_map.mp hc1
            rw [← hcont]
            exact cellOfContent_ne_some_empty content
          · rw [List.eq_of_mem_replicate hc2]
            simp
      · rw [← hT] at hblank ⊢
        exact hblank

/-- Witness for C8 (amended): a two-column plan loads from its CSV text and
survives the export round trip unchanged. -/
theorem slotting_roundtrip_witness :
    read_csv (to_csv ⟨["a", "b"], [[some "1", some "2"]]⟩)
      = some (⟨["a", "b"], [[some "1", some "2"]]⟩ : Table) :=
  slotting_roundtrip "a,b\n1,2\n" ⟨["a", "b"], [[some "1", some "2"]]⟩
    (by decide) (by decide) (by decide)

/-- Counterexample to C8: the single-column plan loaded from `col\n""\n` has
one row holding a missing value; exporting it writes that row as a blank
line, and re-parsing the exported text skips the blank line, returning a
table with no rows — not the original loaded table. -/
theorem slotting_roundtrip_cex :
    read_csv "col\n\"\"\n" = some ⟨["col"], [[none]]⟩ ∧
    to_csv ⟨["col"], [[none]]⟩ = "col\n\n" ∧
    read_csv "col\n\n" = some ⟨["col"], []⟩ ∧
    (⟨["col"], []⟩ : Table) ≠ ⟨["col"], [[none]]⟩ :=
  ⟨by decide, by decide, by decide, by decide⟩

end DataVerse
